import Mathlib

/-!
Verification of the ircutil client engine (connection lifecycle, keepalive
loops, frame parsing, dispatch and trigger matching).

The Go sources are shallowly embedded below.  Pure helpers become Lean
functions on `String`/`List Char`; Go string indexing and slicing, which
panic when out of range, are embedded as `Option`-valued functions where
`none` marks a panic; side effects (outbound frames, handler spawns, log
lines) are reified as explicit effect lists; the two goroutine loops are
embedded as functions of the sequence of events their `select` statements
resolve to.  Machine strings are treated as their character lists (all
inputs exercised by the development are ASCII, where Go's byte indices and
rune indices coincide).
-/

namespace Ircutil

/-! ### Go string primitives -/

/-- Go `strings.Split(s, " ")` restricted to a single-character separator:
splits on every occurrence, keeping empty fields. -/
def splitChars (sep : Char) : List Char → List (List Char)
  | [] => [[]]
  | c :: cs =>
    if c = sep then [] :: splitChars sep cs
    else
      match splitChars sep cs with
      | [] => [[c]]
      | t :: ts => (c :: t) :: ts

/-- Go `strings.Split` on a one-character separator. -/
def goSplit (s : String) (sep : Char) : List String :=
  (splitChars sep s.toList).map String.mk

/-- Go `strings.Join(l, sep)`. -/
def goJoin : List String → String → String
  | [], _ => ""
  | [a], _ => a
  | a :: rest, sep => a ++ sep ++ goJoin rest sep

/-- Whitespace class used by Go `strings.TrimSpace` (ASCII portion). -/
def isSpaceGo (c : Char) : Bool :=
  c == ' ' || c == '\t' || c == '\n' || c == '\r' || c == '\x0b' || c == '\x0c'

/-- Go `strings.TrimSpace` (ASCII whitespace). -/
def goTrimSpace (s : String) : String :=
  String.mk (((s.toList.dropWhile isSpaceGo).reverse.dropWhile isSpaceGo).reverse)

/-- Go `strings.TrimSuffix`. -/
def goTrimSuffix (s sfx : String) : String :=
  if sfx.toList.isSuffixOf s.toList then
    String.mk (s.toList.take (s.toList.length - sfx.toList.length))
  else s

/-- ASCII lower-casing of one character, as Go `strings.ToLower` does on
ASCII input. -/
def charToLower (c : Char) : Char :=
  if 'A' ≤ c ∧ c ≤ 'Z' then Char.ofNat (c.toNat + 32) else c

/-- Go `strings.ToLower` (ASCII). -/
def goToLower (s : String) : String :=
  String.mk (s.toList.map charToLower)

/-- Go slice expression `s[1:]`: panics (`none`) on the empty string,
otherwise drops the first character. -/
def sliceFrom1 (s : String) : Option String :=
  match s.toList with
  | [] => none
  | _ :: cs => some (String.mk cs)

/-- Go `strings.Replace(s, pat, rep, 1)` on character lists: replace the
first occurrence of `pat` only. -/
def listReplaceFirst (pat rep : List Char) : List Char → List Char
  | [] => if pat.isPrefixOf ([] : List Char) then rep else []
  | c :: cs =>
    if pat.isPrefixOf (c :: cs) then rep ++ (c :: cs).drop pat.length
    else c :: listReplaceFirst pat rep cs

/-- Character class of the Go regexp `[0-9A-Za-z]`. -/
def isAlnumChar (c : Char) : Bool :=
  ('0' ≤ c && c ≤ '9') || ('A' ≤ c && c ≤ 'Z') || ('a' ≤ c && c ≤ 'z')

/-- Go `regexp "^[0-9A-Za-z]+$"` match: non-empty and all alphanumeric. -/
def alnumMatch (s : String) : Bool :=
  !s.toList.isEmpty && s.toList.all isAlnumChar

/-- Go `strings.IndexRune(s, c)` on character lists: index of the first
occurrence, `-1` when absent. -/
def indexRuneList (c : Char) : List Char → Int
  | [] => -1
  | x :: xs =>
    if x = c then 0
    else if indexRuneList c xs < 0 then -1 else indexRuneList c xs + 1

/-- Go `strings.IndexRune`. -/
def indexRune (s : String) (c : Char) : Int :=
  indexRuneList c s.toList

/-- Go slice expression `s[0:i]` with an `Int` bound: panics (`none`) when
`i < 0` or `i > len(s)`. -/
def goSliceTo (s : String) (i : Int) : Option String :=
  if 0 ≤ i ∧ i ≤ (s.toList.length : Int) then
    some (String.mk (s.toList.take i.toNat))
  else none

/-- `concatMap f l` concatenates `f` over `l`; used to state loop-shaped
dispatch results. -/
def concatMap (f : α → List β) : List α → List β
  | [] => []
  | a :: as => f a ++ concatMap f as

/-! ### Data model (`Settings`, `Command`, `Message`, `Client`) -/

/-- Command settings (`Settings` in the source). -/
structure Settings where
  caseSensitive : Bool
  symbol : String
  scope : List String
  admin : Bool
deriving DecidableEq, Repr

/-- A registered command (`Command` in the source). -/
structure Command where
  triggers : List String
  function : String
  arguments : String
  settings : Settings
deriving DecidableEq, Repr

/-- Parsed inbound chat event (`Message` in the source). -/
structure Message where
  source : String
  target : String
  trigger : String
  args : List String
deriving DecidableEq, Repr

/-- The client/session state used by the engine.  The socket handle, ready
callback and `Done` channel are external or modelled separately (the loop
models below take the channel state explicitly); `cmdKeys` is the key set
of the client's `CmdMap`. -/
structure Client where
  serverID : String
  userID : String
  host : String
  port : Nat
  secure : Bool
  serverPassword : String
  userNick : String
  userUser : String
  userReal : String
  nick : String
  admins : List String
  commands : List Command
  cmdKeys : List String
deriving DecidableEq, Repr

/-- Observable effects of the dispatch engine: an outbound raw frame, a
spawned handler invocation, or a log line. -/
inductive Effect where
  | send (line : String)
  | execCmd (key : String) (msg : Message)
  | logged (text : String)
  | ready
deriving DecidableEq, Repr

def isExecEff : Effect → Bool
  | .execCmd _ _ => true
  | _ => false

def isSendEff : Effect → Bool
  | .send _ => true
  | _ => false

/-! ### utility.go -/

/-- `isChannel` from utility.go: `target[0] == '#'`.  Indexing an empty
string panics, hence `none`. -/
def isChannel (target : String) : Option Bool :=
  target.toList.head?.map (fun c => c == '#')

/-- `getNick` from utility.go: `src[0:strings.IndexRune(src, '!')]`.
When `src` has no `'!'` the index is `-1` and the slice panics (`none`). -/
def getNick (src : String) : Option String :=
  goSliceTo src (indexRune src '!')

/-! ### actions.go -/

/-- `SendPong`: emits `PONG :<msg>`. -/
def SendPong (msg : String) : Effect :=
  .send ("PONG :" ++ msg)

/-- `SendPing`: emits `PING :<msg>`. -/
def SendPing (msg : String) : Effect :=
  .send ("PING :" ++ msg)

/-- `SendNick`: records the new tracked nick and emits `NICK <nick>`.
Returns (effects, new tracked nick). -/
def SendNick (nick : String) : List Effect × String :=
  ([.send ("NICK " ++ nick)], nick)

/-- `SendNickRandom`: `SendNick(client, "Inami" + Itoa(rnd))` where `rnd`
is the drawn value of `rand.Intn(10000)`. -/
def SendNickRandom (rnd : Nat) : List Effect × String :=
  SendNick ("Inami" ++ toString rnd)

/-- `SendResponse`: reply to the channel if the target is a channel, else
privately to the sender's nick.  Panics (`none`) propagate from
`isChannel`/`getNick`. -/
def sendResponse (client : Client) (src target msg : String) : Option Effect := do
  let chan ← isChannel target
  if chan then
    pure (.send ("PRIVMSG " ++ target ++ " :" ++ msg))
  else do
    let nick ← getNick src
    pure (.send ("PRIVMSG " ++ nick ++ " :" ++ msg))

/-! ### commands.go -/

/-- `ExecCommand`: unknown key is an error, known key spawns the handler
(reified as an `execCmd` effect with the invocation data). -/
def ExecCommand (client : Client) (key : String) (c : Command) (m : Message) :
    Except String Effect :=
  if client.cmdKeys.contains key then .ok (.execCmd key m)
  else .error "executing command: invalid key"

/-! ### events.go -/

/-- Digits of a Go integer literal to its value, `none` if empty or any
non-digit. -/
def digitsVal (ds : List Char) : Option Nat :=
  if ds ≠ [] ∧ ds.all Char.isDigit then
    some (ds.foldl (fun n c => n * 10 + (c.toNat - '0'.toNat)) 0)
  else none

/-- Go `strconv.Atoi`: optional sign followed by one or more digits. -/
def goAtoi (s : String) : Option Int :=
  match s.toList with
  | '+' :: ds => (digitsVal ds).map Int.ofNat
  | '-' :: ds => (digitsVal ds).map (fun n => -(n : Int))
  | ds => (digitsVal ds).map Int.ofNat

/-- Result of `parseMessage`: a numeric response or a command word, with
the source (empty when the line carried none) and remaining tokens. -/
inductive Parsed where
  | response (src : String) (code : Int) (tokens : List String)
  | command (src : String) (cmd : String) (tokens : List String)
deriving DecidableEq, Repr

/-- `parseMessage` from events.go: trim the line, split on single spaces,
strip a leading `:<source>` token, then route on whether the next token
parses as an integer.  Indexing `tokens[0][0]` panics on an empty first
token, and `tokens[0]` after consuming the source panics when no token
remains (`none`). -/
def parseMessage (msg : String) : Option Parsed :=
  let msg := goTrimSpace (goTrimSuffix msg "\r\n")
  match goSplit msg ' ' with
  | [] => none
  | t0 :: rest =>
    match t0.toList with
    | [] => none
    | c :: cs =>
      let (src, tokens) := if c = ':' then (String.mk cs, rest) else ("", t0 :: rest)
      match tokens with
      | [] => none
      | u0 :: urest =>
        match goAtoi u0 with
        | some code => some (.response src code urest)
        | none => some (.command src u0 urest)

/-- `handleResponse` from events.go.  `rnd` is the value drawn by
`rand.Intn(10000)` inside `SendNickRandom` on the 433 path.  Returns
(effects, new tracked nick). -/
def handleResponse (client : Client) (code : Int) (tokens : List String)
    (rnd : Nat) : List Effect × String :=
  if code = 4 then ([.ready], client.nick)
  else if code = 433 then SendNickRandom rnd
  else ([], client.nick)

/-- One signature token of `checkArgs`: mandatory iff it starts with `<`
and ends with `>`.  Indexing `arg[0]` panics on an empty token (`none`). -/
def mandatoryArg (a : String) : Option Bool :=
  match a.toList with
  | [] => none
  | c :: cs => some (c == '<' && (c :: cs).getLast (List.cons_ne_nil c cs) == '>')

/-- The `needed` counter of `checkArgs` over the split signature. -/
def mandatoryCount : List String → Option Nat
  | [] => some 0
  | a :: rest => do
    let b ← mandatoryArg a
    let n ← mandatoryCount rest
    pure (if b then n + 1 else n)

/-- `checkArgs` from events.go: count `<...>` tokens of the signature and
require at least that many supplied tokens. -/
def checkArgs (list : String) (args : List String) : Option Bool :=
  if 0 < list.length then
    (mandatoryCount (goSplit list ' ')).map (fun n => Nat.ble n args.length)
  else some true

/-- `processTrigger` from events.go: substitute the first `%NICK%`
occurrence with the tracked nick. -/
def processTrigger (client : Client) (trigger : String) : String :=
  String.mk (listReplaceFirst "%NICK%".toList client.nick.toList trigger.toList)

/-- One entry of the scope loop in `validateCommand`:
`(*s == "channel" && isChannel(target)) || (*s == "direct" && !isChannel(target))`,
with Go short-circuit evaluation (a target panic only occurs when the
entry is `"channel"` or `"direct"`). -/
def scopeEntryMatch (s target : String) : Option Bool :=
  if s = "channel" then isChannel target
  else if s = "direct" then (isChannel target).map (fun b => !b)
  else some false

/-- The scope loop of `validateCommand`: or-accumulate over all entries
(the loop has no break). -/
def scopeMatch (scope : List String) (target : String) : Option Bool :=
  match scope with
  | [] => some false
  | s :: rest => do
    let b ← scopeEntryMatch s target
    let r ← scopeMatch rest target
    pure (b || r)

/-- The trigger-match condition of `validateCommand`: exact equality, or
equality ignoring case when case sensitivity is off. -/
def triggerMatches (client : Client) (settings : Settings)
    (trigger cmd : String) : Bool :=
  processTrigger client trigger == cmd ||
    (!settings.caseSensitive &&
      goToLower (processTrigger client trigger) == goToLower cmd)

/-- `validateCommand` from events.go: trigger match (with case-sensitivity
setting), then scope match, then admin check (which evaluates
`getNick(src)` and so panics on a `'!'`-free source). -/
def validateCommand (client : Client) (settings : Settings)
    (trigger src target cmd : String) : Option Bool :=
  if !triggerMatches client settings trigger cmd then some false
  else do
    let sm ← scopeMatch settings.scope target
    if !sm then pure false
    else if settings.admin then do
      let nick ← getNick src
      pure (client.admins.contains nick)
    else pure true

/-- The usage-error reply text of `handleMessage`. -/
def usageMessage (trigger arguments : String) : String :=
  "Invalid arguments. Usage: " ++ trigger ++ " " ++ arguments

/-- The body of `handleMessage` for one (command, trigger) pair: validate,
check arity, then either execute (or log an invalid-key error) or send the
usage reply. -/
def handleMessagePair (client : Client) (c : Command) (t : String)
    (src target cmd : String) (tokens : List String) : Option (List Effect) := do
  let ok ← validateCommand client c.settings (c.settings.symbol ++ t)
    src target cmd
  if ok then do
    let enough ← checkArgs c.arguments tokens
    if enough then
      match ExecCommand client c.function c
          ⟨src, target, c.settings.symbol ++ t, tokens⟩ with
      | .ok e => pure [e]
      | .error msg => pure [.logged msg]
    else do
      let e ← sendResponse client src target
        (usageMessage (c.settings.symbol ++ t) c.arguments)
      pure [e]
  else pure []

/-- The inner trigger loop of `handleMessage`. -/
def handleTriggers (client : Client) (c : Command) (ts : List String)
    (src target cmd : String) (tokens : List String) : Option (List Effect) :=
  match ts with
  | [] => some []
  | t :: rest => do
    let es ← handleMessagePair client c t src target cmd tokens
    let more ← handleTriggers client c rest src target cmd tokens
    pure (es ++ more)

/-- The outer command loop of `handleMessage`. -/
def handleCommandsList (client : Client) (cs : List Command)
    (src target cmd : String) (tokens : List String) : Option (List Effect) :=
  match cs with
  | [] => some []
  | c :: rest => do
    let es ← handleTriggers client c c.triggers src target cmd tokens
    let more ← handleCommandsList client rest src target cmd tokens
    pure (es ++ more)

/-- `handleMessage` from events.go: try every trigger of every registered
command against the chat line. -/
def handleMessage (client : Client) (src target cmd : String)
    (tokens : List String) : Option (List Effect) :=
  handleCommandsList client client.commands src target cmd tokens

/-- The PRIVMSG argument extraction of `handleCommand`:
`tokens[0]`, `tokens[1][1:]`, `tokens[2:]` — panics when fewer than two
tokens are present or the second is empty. -/
def privmsgParts (tokens : List String) : Option (String × String × List String) :=
  match tokens with
  | t0 :: t1 :: rest => (sliceFrom1 t1).map (fun c => (t0, c, rest))
  | _ => none

/-- `handleCommand` from events.go.  Returns (effects, new tracked nick);
`none` is a panic on one of the Go indexing/slicing operations. -/
def handleCommand (client : Client) (src cmd : String) (tokens : List String) :
    Option (List Effect × String) :=
  if cmd = "NICK" then do
    let n ← getNick src
    if client.nick == n then do
      let nn ← sliceFrom1 (goJoin tokens " ")
      pure ([], nn)
    else pure ([], client.nick)
  else if cmd = "PING" then do
    let p ← sliceFrom1 (goJoin tokens " ")
    pure ([SendPong p], client.nick)
  else if cmd = "PRIVMSG" then do
    let (target, c, rest) ← privmsgParts tokens
    let effs ← handleMessage client src target c rest
    pure (effs, client.nick)
  else pure ([], client.nick)

/-! ### connection.go: `EstablishConnection` -/

/-- Network I/O steps of `EstablishConnection`: a dial attempt, or an
outbound registration frame. -/
inductive EstEv where
  | dial
  | send (line : String)
deriving DecidableEq, Repr

/-- The heartbeat period of `pingLoop` (`time.Minute * 2`), in seconds. -/
def pingInterval : Nat := 120

/-- The rolling read deadline of `readLoop` (`time.Minute * 3`), in
seconds. -/
def readDeadline : Nat := 180

/-- `EstablishConnection` from connection.go, with the dial outcome an
explicit parameter (`some e` = dial/TLS error `e`, surfaced unwrapped).
Returns (error or none, ordered trace of network I/O). -/
def establishConnection (client : Client) (dialErr : Option String) :
    Option String × List EstEv :=
  if !(alnumMatch client.serverID) then
    (some "establishing connection: server id invalid", [])
  else if !(alnumMatch client.userID) then
    (some "establishing connection: user id invalid", [])
  else if client.host.length < 1 then
    (some "establishing connection: hostname too short", [])
  else if client.port = 0 then
    (some "establishing connection: port too low", [])
  else if client.userNick.length < 1 then
    (some "establishing connection: nickname too short", [])
  else
    match dialErr with
    | some e => (some e, [.dial])
    | none =>
      (none, [EstEv.dial] ++
        (if 0 < client.serverPassword.length then
          [EstEv.send ("PASS :" ++ client.serverPassword)]
        else []) ++
        [EstEv.send ("NICK " ++ client.userNick),
         EstEv.send ("USER " ++ client.userUser ++ " 0 0 :" ++ client.userReal)])

/-! ### connection.go: the two loops and the cancellation signal

The cancellation signal is the `Done` channel; its state is a `Bool`
(`true` = closed/fired).  `closeDone` embeds the Go builtin `close`:
closing an already-closed channel panics (`none`).  Each loop is embedded
as a function of the sequence of events its `select`/reads resolve to,
producing the trace of its observable actions. -/

/-- Go `close(client.Done)`: panics (`none`) when the channel is already
closed, otherwise the channel becomes closed. -/
def closeDone (done : Bool) : Option Bool :=
  if done then none else some true

/-- One read outcome inside `readLoop`. -/
inductive ReadRes where
  | ok (msg : String)
  | fail (e : String)
deriving DecidableEq, Repr

/-- Observable actions of `readLoop`. -/
inductive LoopEv where
  | parsed (msg : String)
  | logged (e : String)
  | closed
  | panicked
  | exited
deriving DecidableEq, Repr

/-- `readLoop` from connection.go over a (finite prefix of the) stream of
read outcomes.  When `Done` is closed the `select` takes the done case
and the loop returns; otherwise the default case reads: success hands the
line to the parser, failure logs and fires cancellation.  (The `default`
branch of a Go `select` runs only when no channel case is ready, so the
loop is deterministic given the read outcomes.) -/
def readLoop (done : Bool) (reads : List ReadRes) : List LoopEv :=
  if done then [.exited]
  else
    match reads with
    | [] => []
    | .ok m :: rest => .parsed m :: readLoop done rest
    | .fail e :: rest =>
      match closeDone done with
      | none => [.logged e, .panicked]
      | some _ => .logged e :: .closed :: readLoop true rest

/-- Resolutions of the `select` in `pingLoop`: the done case (only ready
once cancellation has fired) or a ticker tick carrying the nanosecond
timestamp used as the heartbeat nonce. -/
inductive PingEv where
  | selDone
  | selTick (nonce : Nat)
deriving DecidableEq, Repr

/-- Observable actions of `pingLoop`. -/
inductive PingAct where
  | ping (nonce : Nat)
  | stopped
deriving DecidableEq, Repr

/-- The heartbeat frame sent per tick:
`SendPing(client, strconv.FormatInt(now.UnixNano(), 10))`. -/
def pingFrame (nonce : Nat) : Effect :=
  SendPing (toString nonce)

/-- `pingLoop` from connection.go over the sequence of resolved select
cases: each tick sends one heartbeat, the done case stops the ticker and
exits. -/
def pingLoop : List PingEv → List PingAct
  | [] => []
  | .selDone :: _ => [.stopped]
  | .selTick t :: rest => .ping t :: pingLoop rest

/-! ### Basic lemmas -/

theorem eq_empty_of_toList_nil {s : String} (h : s.toList = []) : s = "" := by
  cases s with
  | mk data =>
    have hd : data = [] := h
    subst hd
    rfl

theorem toList_ne_nil {s : String} (h : s ≠ "") : s.toList ≠ [] :=
  fun hl => h (eq_empty_of_toList_nil hl)

theorem length_lt_one_iff (s : String) : s.length < 1 ↔ s = "" := by
  constructor
  · intro h
    apply eq_empty_of_toList_nil
    have hlen : s.toList.length = 0 := by
      have : s.length = s.toList.length := rfl
      omega
    exact List.length_eq_zero.mp hlen
  · intro h
    subst h
    decide

theorem indexRuneList_of_not_mem {c : Char} :
    ∀ {l : List Char}, c ∉ l → indexRuneList c l = -1 := by
  intro l
  induction l with
  | nil => intro _; rfl
  | cons x xs ih =>
    intro h
    have hx : ¬x = c := fun hxc => h (hxc ▸ List.mem_cons_self x xs)
    have hxs : c ∉ xs := fun hm => h (List.mem_cons_of_mem x hm)
    simp [indexRuneList, hx, ih hxs]

theorem indexRuneList_of_mem {c : Char} :
    ∀ {l : List Char}, c ∈ l →
      indexRuneList c l = ((l.takeWhile (fun x => x != c)).length : Int) := by
  intro l
  induction l with
  | nil => intro h; cases h
  | cons x xs ih =>
    intro h
    by_cases hx : x = c
    · subst hx
      simp [indexRuneList, List.takeWhile]
    · have hxs : c ∈ xs := by
        cases h with
        | head => exact absurd rfl hx
        | tail _ hm => exact hm
      have hb : (x != c) = true := by
        simp [bne_iff_ne]
        exact hx
      simp [indexRuneList, hx, ih hxs, List.takeWhile, hb]

/-- On a source containing `'!'`, `getNick` returns the prefix strictly
before the first `'!'`. -/
theorem getNick_of_mem {src : String} (h : '!' ∈ src.toList) :
    getNick src = some (String.mk (src.toList.takeWhile (fun x => x != '!'))) := by
  unfold getNick goSliceTo indexRune
  rw [indexRuneList_of_mem h]
  have hle : (src.toList.takeWhile (fun x => x != '!')).length ≤ src.toList.length :=
    (src.toList.takeWhile_prefix (fun x => x != '!')).length_le
  have hcond : (0 : Int) ≤ ((src.toList.takeWhile (fun x => x != '!')).length : Int) ∧
      ((src.toList.takeWhile (fun x => x != '!')).length : Int) ≤ (src.toList.length : Int) := by
    constructor
    · exact Int.ofNat_nonneg _
    · exact_mod_cast hle
  rw [if_pos hcond]
  congr 1
  congr 1
  have htn : (((src.toList.takeWhile (fun x => x != '!')).length : Int)).toNat =
      (src.toList.takeWhile (fun x => x != '!')).length := Int.toNat_ofNat _
  rw [htn]
  exact ((List.prefix_iff_eq_take).mp (src.toList.takeWhile_prefix _)).symm

/-- On a source with no `'!'`, the computed index is `-1` and the Go slice
`src[0:-1]` panics. -/
theorem getNick_of_not_mem {src : String} (h : '!' ∉ src.toList) :
    indexRune src '!' = -1 ∧ getNick src = none := by
  have hidx : indexRune src '!' = -1 := indexRuneList_of_not_mem h
  refine ⟨hidx, ?_⟩
  unfold getNick goSliceTo
  rw [hidx]
  rw [if_neg]
  intro hc
  exact absurd hc.1 (by decide)

/-! ### C1: validation in `EstablishConnection` -/

/-- C1: for every client whose server and user IDs pass the alphanumeric
check, if the host is empty, or the port is zero, or the nick is empty,
`EstablishConnection` returns a validation error before any network I/O
(the I/O trace is empty: no dial, no frame), the checks being applied in
the order host, port, nick, and the three error messages are pairwise
distinct. -/
theorem establishConnection_validation (client : Client) (dialErr : Option String)
    (hs : alnumMatch client.serverID = true) (hu : alnumMatch client.userID = true)
    (hbad : client.host = "" ∨ client.port = 0 ∨ client.userNick = "") :
    (establishConnection client dialErr).2 = [] ∧
    (establishConnection client dialErr).1 =
      some (if client.host = "" then "establishing connection: hostname too short"
            else if client.port = 0 then "establishing connection: port too low"
            else "establishing connection: nickname too short") ∧
    ("establishing connection: hostname too short" ≠
        "establishing connection: port too low" ∧
      "establishing connection: hostname too short" ≠
        "establishing connection: nickname too short" ∧
      "establishing connection: port too low" ≠
        "establishing connection: nickname too short") := by
  refine ⟨?_, ?_, by decide, by decide, by decide⟩ <;>
  · by_cases h1 : client.host = ""
    · unfold establishConnection
      simp [hs, hu, h1]
    · have hlen1 : ¬client.host.length < 1 :=
        fun hc => h1 ((length_lt_one_iff _).mp hc)
      by_cases h2 : client.port = 0
      · unfold establishConnection
        simp [hs, hu, h1, hlen1, h2]
      · have h3 : client.userNick = "" := by
          rcases hbad with h | h | h
          · exact absurd h h1
          · exact absurd h h2
          · exact h
        unfold establishConnection
        simp [hs, hu, h1, hlen1, h2, h3]

/-- Concrete client with an empty host for the C1 witness. -/
def clientC1 : Client :=
  { serverID := "srv", userID := "usr", host := "", port := 6667,
    secure := false, serverPassword := "", userNick := "bot", userUser := "bot",
    userReal := "bot", nick := "bot", admins := [], commands := [], cmdKeys := [] }

/-- Witness for C1 at a concrete client with an empty host. -/
theorem establishConnection_validation_witness :
    (establishConnection clientC1 none).2 = [] ∧
    (establishConnection clientC1 none).1 =
      some "establishing connection: hostname too short" := by
  have h := establishConnection_validation clientC1 none (by decide) (by decide)
    (Or.inl rfl)
  refine ⟨h.1, ?_⟩
  have h2 := h.2.1
  rw [if_pos (show clientC1.host = "" from rfl)] at h2
  exact h2

/-! ### C2: inbound NICK handling -/

/-- C2: for an inbound NICK frame whose source contains `'!'`, the tracked
nick is updated to the value carried by the frame (the joined tokens minus
the leading marker) exactly when the nick portion of the source equals the
currently tracked nick; otherwise it is left unchanged. -/
theorem handleCommand_nick (client : Client) (src : String) (tokens : List String)
    (hsrc : '!' ∈ src.toList) :
    (client.nick = String.mk (src.toList.takeWhile (fun x => x != '!')) →
      goJoin tokens " " ≠ "" →
      handleCommand client src "NICK" tokens =
        some ([], String.mk ((goJoin tokens " ").toList.drop 1))) ∧
    (client.nick ≠ String.mk (src.toList.takeWhile (fun x => x != '!')) →
      handleCommand client src "NICK" tokens = some ([], client.nick)) := by
  constructor
  · intro heq hne
    obtain ⟨c, cs, hcs⟩ := List.exists_cons_of_ne_nil (toList_ne_nil hne)
    have hslice : sliceFrom1 (goJoin tokens " ") = some (String.mk cs) := by
      unfold sliceFrom1
      rw [hcs]
    have hcs2 : (goJoin tokens " ").data = c :: cs := hcs
    have hdrop : (goJoin tokens " ").toList.drop 1 = cs := by simp [hcs2]
    unfold handleCommand
    rw [if_pos rfl, getNick_of_mem hsrc, hdrop]
    simp [heq, hslice]
  · intro hne
    unfold handleCommand
    rw [if_pos rfl, getNick_of_mem hsrc]
    have hbeq : (client.nick ==
        String.mk (src.data.takeWhile (fun x => x != '!'))) = false :=
      beq_eq_false_iff_ne.mpr hne
    simp [hbeq]
    intro h
    exact absurd h hne

/-- Concrete client for the C2 witness. -/
def clientC2 : Client :=
  { clientC1 with host := "irc.example.com", nick := "alice" }

/-- Witness for C2: `alice` renames itself to `bob`; a rename by `carol`
leaves the tracked nick unchanged. -/
theorem handleCommand_nick_witness :
    handleCommand clientC2 "alice!u@h" "NICK" [":bob"] = some ([], "bob") ∧
    handleCommand clientC2 "carol!u@h" "NICK" [":dave"] = some ([], "alice") := by
  constructor
  · have h := (handleCommand_nick clientC2 "alice!u@h" [":bob"] (by decide)).1
      (by decide) (by decide)
    have hv : String.mk ((goJoin [":bob"] " ").toList.drop 1) = "bob" := by decide
    rw [hv] at h
    exact h
  · have h := (handleCommand_nick clientC2 "carol!u@h" [":dave"] (by decide)).2
      (by decide)
    exact h

/-! ### C5: parsing a concrete PRIVMSG line -/

/-- C5: parsing `:alice!u@h PRIVMSG #chan :!ping arg1` yields source
`alice!u@h` and command word `PRIVMSG`, and the PRIVMSG extraction hands
dispatch the target `#chan` and the text `!ping arg1` with the leading
`:` stripped from its first token. -/
theorem parseMessage_example :
    parseMessage ":alice!u@h PRIVMSG #chan :!ping arg1" =
      some (Parsed.command "alice!u@h" "PRIVMSG" ["#chan", ":!ping", "arg1"]) ∧
    privmsgParts ["#chan", ":!ping", "arg1"] = some ("#chan", "!ping", ["arg1"]) ∧
    goJoin ["!ping", "arg1"] " " = "!ping arg1" := by
  refine ⟨by decide, by decide, by decide⟩

/-! ### C7: nickname-collision handling (433) -/

/-- Concrete client whose rejected nick is itself `Inami0`. -/
def clientInami : Client :=
  { clientC2 with nick := "Inami0" }

/-- C7 counterexample: the claim says the generated nickname differs from
the rejected nick for every value of the random integer, but with the
rejected nick `Inami0` and the (legal) draw `0`, `handleResponse` sends
`NICK Inami0`, identical to the rejected nick. -/
theorem handleResponse_collision_counterexample :
    clientInami.nick = "Inami0" ∧ (0 : Nat) < 10000 ∧
    handleResponse clientInami 433 [] 0 =
      ([Effect.send "NICK Inami0"], "Inami0") := by
  refine ⟨rfl, by decide, by decide⟩

/-- C7 (amended): every received 433 numeric triggers exactly one nick-set
frame, whose nickname is the fixed prefix `Inami` plus the drawn bounded
random integer, and it differs from the rejected nick whenever the
rejected nick is not itself that very string. -/
theorem handleResponse_collision (client : Client) (tokens : List String)
    (rnd : Nat) (hrnd : rnd < 10000)
    (hne : client.nick ≠ "Inami" ++ toString rnd) :
    handleResponse client 433 tokens rnd =
      ([Effect.send ("NICK " ++ ("Inami" ++ toString rnd))],
        "Inami" ++ toString rnd) ∧
    "Inami" ++ toString rnd ≠ client.nick := by
  exact ⟨rfl, Ne.symm hne⟩

/-- Witness for C7 (amended) at a concrete client and draw. -/
theorem handleResponse_collision_witness :
    handleResponse clientC2 433 [] 42 =
      ([Effect.send "NICK Inami42"], "Inami42") ∧
    "Inami42" ≠ clientC2.nick := by
  have h := handleResponse_collision clientC2 [] 42 (by decide) (by decide)
  refine ⟨?_, ?_⟩
  · have h1 := h.1
    have hv : ("Inami" ++ toString 42 : String) = "Inami42" := by decide
    rw [hv] at h1
    exact h1
  · have h2 := h.2
    have hv : ("Inami" ++ toString 42 : String) = "Inami42" := by decide
    rw [hv] at h2
    exact h2

/-! ### C8: PING/PONG echo -/

/-- C8: for every inbound PING frame (payload introduced by the `:`
marker), the engine replies with exactly one PONG frame carrying the same
payload. -/
theorem handleCommand_ping (client : Client) (src : String) (tokens : List String)
    (payload : String) (h : goJoin tokens " " = ":" ++ payload) :
    handleCommand client src "PING" tokens =
      some ([Effect.send ("PONG :" ++ payload)], client.nick) := by
  unfold handleCommand
  rw [if_neg (by decide : ¬("PING" : String) = "NICK"), if_pos rfl, h]
  have hs1 : sliceFrom1 (":" ++ payload) = some payload := rfl
  simp [hs1, SendPong]

/-- Witness for C8 at a concrete PING frame. -/
theorem handleCommand_ping_witness :
    handleCommand clientC2 "x" "PING" [":srv1"] =
      some ([Effect.send "PONG :srv1"], "alice") := by
  have h := handleCommand_ping clientC2 "x" [":srv1"] "srv1" (by decide)
  have hv : ("PONG :" ++ "srv1" : String) = "PONG :srv1" := by decide
  rw [hv] at h
  have hn : clientC2.nick = "alice" := rfl
  rw [hn] at h
  exact h

/-! ### C4: scope matching -/

theorem scopeMatch_contains {target : String} {b : Bool}
    (hch : isChannel target = some b) (scope : List String) :
    scopeMatch scope target =
      some ((scope.contains "channel" && b) || (scope.contains "direct" && !b)) := by
  induction scope with
  | nil => rfl
  | cons s rest ih =>
    by_cases h1 : s = "channel"
    · subst h1
      simp [scopeMatch, scopeEntryMatch, hch, ih]
      cases b <;> simp
    · by_cases h2 : s = "direct"
      · subst h2
        simp [scopeMatch, scopeEntryMatch, hch, ih]
        cases b <;> simp
      · have e1 : ¬("channel" : String) = s := fun hh => h1 hh.symm
        have e2 : ¬("direct" : String) = s := fun hh => h2 hh.symm
        simp [scopeMatch, scopeEntryMatch, h1, h2, hch, ih, e1, e2]

/-- Default-style settings of the C4 scenario: symbol `!`, case-insensitive,
scope `{channel}`, non-admin. -/
def pingSettings : Settings :=
  { caseSensitive := false, symbol := "!", scope := ["channel"], admin := false }

/-- The same settings with scope `{channel, direct}`. -/
def pingSettingsBoth : Settings :=
  { pingSettings with scope := ["channel", "direct"] }

/-- Concrete client for the C4 scenario. -/
def clientC4 : Client :=
  { clientC1 with host := "irc.example.com", nick := "bot" }

/-- C4: with symbol `!`, trigger `ping`, case-insensitive, scope
`{channel}`, non-admin, the word `!PING` matches on the channel target
`#chan` and does not match on the non-channel target `alice` unless the
scope also contains `direct`; in general the scope condition holds iff
the scope set contains `channel` and the target begins with `#`, or
contains `direct` and it does not. -/
theorem validateCommand_scope :
    validateCommand clientC4 pingSettings "!ping" "alice!u@h" "#chan" "!PING" =
      some true ∧
    validateCommand clientC4 pingSettings "!ping" "alice!u@h" "alice" "!PING" =
      some false ∧
    validateCommand clientC4 pingSettingsBoth "!ping" "alice!u@h" "alice" "!PING" =
      some true ∧
    (∀ (scope : List String) (target : String), target.toList ≠ [] →
      (scopeMatch scope target = some true ↔
        (("channel" ∈ scope ∧ target.toList.head? = some '#') ∨
         ("direct" ∈ scope ∧ ¬target.toList.head? = some '#')))) := by
  refine ⟨by decide, by decide, by decide, ?_⟩
  intro scope target h
  obtain ⟨c, cs, hcs⟩ := List.exists_cons_of_ne_nil h
  have hch : isChannel target = some (c == '#') := by
    unfold isChannel
    rw [hcs]
    rfl
  rw [scopeMatch_contains hch scope, hcs]
  simp [List.head?_cons]

/-- Witness for C4's universally quantified scope rule at concrete
values. -/
theorem validateCommand_scope_witness :
    scopeMatch ["direct"] "bob" = some true := by
  exact (validateCommand_scope.2.2.2 ["direct"] "bob" (by decide)).mpr
    (Or.inr ⟨by decide, by decide⟩)

/-! ### C10: partiality of `getNick` -/

/-- C10: `getNick` returns the prefix of the source strictly before the
first `'!'` whenever the source contains one; on a `'!'`-free source the
computed index is `-1` and the slice panics, so the inbound NICK path,
the admin-only validation path (when trigger and scope match), and the
usage-reply addressing path (non-channel target) are total only under the
precondition that the source contains `'!'`. -/
theorem getNick_partiality :
    (∀ src : String, '!' ∈ src.toList →
      getNick src = some (String.mk (src.toList.takeWhile (fun x => x != '!')))) ∧
    (∀ src : String, '!' ∉ src.toList →
      indexRune src '!' = -1 ∧ getNick src = none ∧
      (∀ (client : Client) (tokens : List String),
        handleCommand client src "NICK" tokens = none) ∧
      (∀ (client : Client) (target msg : String), isChannel target = some false →
        sendResponse client src target msg = none) ∧
      (∀ (client : Client) (settings : Settings) (trigger target cmd : String),
        settings.admin = true →
        triggerMatches client settings trigger cmd = true →
        scopeMatch settings.scope target = some true →
        validateCommand client settings trigger src target cmd = none)) := by
  constructor
  · intro src h
    exact getNick_of_mem h
  · intro src h
    obtain ⟨hidx, hnone⟩ := getNick_of_not_mem h
    refine ⟨hidx, hnone, ?_, ?_, ?_⟩
    · intro client tokens
      unfold handleCommand
      rw [if_pos rfl, hnone]
      rfl
    · intro client target msg hch
      unfold sendResponse
      rw [hch]
      simp [hnone]
    · intro client settings trigger target cmd hadmin htm hsm
      unfold validateCommand
      rw [htm]
      simp [hsm, hadmin, hnone]

/-- Witness for C10 at concrete sources with and without `'!'`. -/
theorem getNick_partiality_witness :
    getNick "alice!u@h" = some "alice" ∧
    getNick "server.example.org" = none ∧
    handleCommand clientC1 "server.example.org" "NICK" [":x"] = none := by
  refine ⟨?_, ?_, ?_⟩
  · have h := getNick_partiality.1 "alice!u@h" (by decide)
    have hv : String.mk ("alice!u@h".toList.takeWhile (fun x => x != '!')) =
        "alice" := by decide
    rw [hv] at h
    exact h
  · exact (getNick_partiality.2 "server.example.org" (by decide)).2.1
  · exact (getNick_partiality.2 "server.example.org" (by decide)).2.2.1
      clientC1 [":x"]

/-! ### C6: the one-shot cancellation signal -/

/-- C6 counterexample: firing the cancellation signal is NOT idempotent.
The signal is a bare Go channel closed with `close(client.Done)`: the
first fire succeeds, but a second fire attempt on the already-fired
signal panics (`none`) instead of being a no-op. -/
theorem closeDone_refire_counterexample :
    closeDone false = some true ∧ closeDone true = none := by
  exact ⟨rfl, rfl⟩

def isClosedEv : LoopEv → Bool
  | .closed => true
  | _ => false

/-- C6 (amended): the code fires cancellation at most once — `readLoop`
closes `Done` at most once along any execution and never reaches the
re-fire panic, after the fire it exits on its next iteration; once the
signal has fired `readLoop` immediately exits (the session never
reactivates), and `pingLoop` exits with no further heartbeat the moment
it observes the fired signal. -/
theorem cancellation_fires_once :
    (∀ reads : List ReadRes, ((readLoop false reads).countP isClosedEv ≤ 1) ∧
      LoopEv.panicked ∉ readLoop false reads) ∧
    (∀ reads : List ReadRes, readLoop true reads = [.exited]) ∧
    (∀ evs : List PingEv, pingLoop (.selDone :: evs) = [.stopped]) := by
  have hdone : ∀ reads : List ReadRes, readLoop true reads = [.exited] := by
    intro reads
    unfold readLoop
    rfl
  refine ⟨?_, hdone, ?_⟩
  · intro reads
    induction reads with
    | nil => simp [readLoop]
    | cons r rest ih =>
      cases r with
      | ok m =>
        have hstep : readLoop false (.ok m :: rest) =
            .parsed m :: readLoop false rest := rfl
        rw [hstep]
        refine ⟨?_, ?_⟩
        · simpa [List.countP_cons, isClosedEv] using ih.1
        · intro hmem
          rcases List.mem_cons.mp hmem with hh | hh
          · cases hh
          · exact ih.2 hh
      | fail e =>
        have hstep : readLoop false (.fail e :: rest) =
            .logged e :: .closed :: readLoop true rest := rfl
        rw [hstep, hdone rest]
        refine ⟨by simp [List.countP_cons, isClosedEv], by simp⟩
  · intro evs
    rfl

/-! ### C9: heartbeat loop behaviour -/

/-- C9: while the session is live, `pingLoop` emits exactly one heartbeat
per tick of its fixed 2-minute ticker, each carrying the nonce of that
tick, so an idle window spanning two ticks observes exactly two heartbeat
frames (with distinct nonces when the tick timestamps differ); once the
cancellation signal fires (the done case of the select is taken), it
stops the ticker and exits with zero further heartbeat sends. -/
theorem pingLoop_heartbeats (a b : Nat) (hab : a ≠ b) :
    pingLoop [.selTick a, .selTick b] = [.ping a, .ping b] ∧
    (pingLoop [.selTick a, .selTick b]).length = 2 ∧
    PingAct.ping a ≠ PingAct.ping b ∧
    pingFrame a = SendPing (toString a) ∧
    (∀ evs : List PingEv, pingLoop (.selDone :: evs) = [.stopped]) := by
  refine ⟨rfl, rfl, ?_, rfl, fun _ => rfl⟩
  intro hp
  exact hab (by cases hp; rfl)

/-- Witness for C9 at two concrete tick timestamps. -/
theorem pingLoop_heartbeats_witness :
    pingLoop [.selTick 100, .selTick 220] = [.ping 100, .ping 220] ∧
    pingLoop [.selDone] = [.stopped] := by
  have h := pingLoop_heartbeats 100 220 (by decide)
  exact ⟨h.1, h.2.2.2.2 []⟩

/-! ### C3: trigger dispatch and arity checking -/

/-- The effect list produced by `handleMessage` for one (command, trigger)
pair, in the panic-free case. -/
def pairEffList (client : Client) (c : Command) (t : String)
    (src target cmd : String) (tokens : List String) : List Effect :=
  if (validateCommand client c.settings (c.settings.symbol ++ t)
      src target cmd).getD false then
    if (checkArgs c.arguments tokens).getD false then
      match ExecCommand client c.function c
          ⟨src, target, c.settings.symbol ++ t, tokens⟩ with
      | .ok e => [e]
      | .error msg => [.logged msg]
    else
      (sendResponse client src target
        (usageMessage (c.settings.symbol ++ t) c.arguments)).toList
  else []

/-- All (command, trigger) pairs visited by the two nested loops of
`handleMessage`, in visiting order. -/
def pairsOf (commands : List Command) : List (Command × String) :=
  concatMap (fun c => c.triggers.map (fun t => (c, t))) commands

/-- A pair satisfies the trigger/scope/admin match. -/
def satPair (client : Client) (src target cmd : String)
    (ct : Command × String) : Bool :=
  decide (validateCommand client ct.1.settings (ct.1.settings.symbol ++ ct.2)
    src target cmd = some true)

/-- A pair's supplied tokens meet its mandatory-argument count. -/
def enoughArgs (tokens : List String) (ct : Command × String) : Bool :=
  decide (checkArgs ct.1.arguments tokens = some true)

theorem sendResponse_some (client : Client) (src target msg : String)
    (hsrc : '!' ∈ src.toList) (htar : target.toList ≠ []) :
    ∃ line, sendResponse client src target msg = some (.send line) := by
  obtain ⟨c, cs, hcs⟩ := List.exists_cons_of_ne_nil htar
  have hch : isChannel target = some (c == '#') := by
    unfold isChannel
    rw [hcs]
    rfl
  unfold sendResponse
  rw [hch, getNick_of_mem hsrc]
  cases hc : c == '#' <;> simp

theorem validateCommand_isSome (client : Client) (settings : Settings)
    (trigger src target cmd : String) (hsrc : '!' ∈ src.toList)
    (htar : target.toList ≠ []) :
    ∃ b, validateCommand client settings trigger src target cmd = some b := by
  obtain ⟨c, cs, hcs⟩ := List.exists_cons_of_ne_nil htar
  have hch : isChannel target = some (c == '#') := by
    unfold isChannel
    rw [hcs]
    rfl
  unfold validateCommand
  rw [scopeMatch_contains hch, getNick_of_mem hsrc]
  cases htm : triggerMatches client settings trigger cmd
  · exact ⟨false, by simp⟩
  · cases hsm : (settings.scope.contains "channel" && (c == '#') ||
        settings.scope.contains "direct" && !(c == '#'))
    · exact ⟨false, by simp [hsm]⟩
    · cases had : settings.admin
      · exact ⟨true, by simp [hsm, had]⟩
      · exact ⟨client.admins.contains
          (String.mk (src.toList.takeWhile (fun x => x != '!'))),
          by simp [hsm, had]⟩

theorem handleMessagePair_eq (client : Client) (c : Command) (t : String)
    (src target cmd : String) (tokens : List String)
    (hsrc : '!' ∈ src.toList) (htar : target.toList ≠ [])
    (hca : checkArgs c.arguments tokens ≠ none) :
    handleMessagePair client c t src target cmd tokens =
      some (pairEffList client c t src target cmd tokens) := by
  obtain ⟨b, hv⟩ := validateCommand_isSome client c.settings
    (c.settings.symbol ++ t) src target cmd hsrc htar
  unfold handleMessagePair pairEffList
  rw [hv]
  cases b
  · simp
  · cases hcc : checkArgs c.arguments tokens with
    | none => exact absurd hcc hca
    | some v =>
      cases v
      · obtain ⟨line, hsr⟩ := sendResponse_some client src target
          (usageMessage (c.settings.symbol ++ t) c.arguments) hsrc htar
        simp [hsr]
      · cases hex : ExecCommand client c.function c
            ⟨src, target, c.settings.symbol ++ t, tokens⟩ <;> simp [hex]

theorem handleTriggers_eq (client : Client) (c : Command)
    (src target cmd : String) (tokens : List String)
    (hsrc : '!' ∈ src.toList) (htar : target.toList ≠ [])
    (hca : checkArgs c.arguments tokens ≠ none) :
    ∀ ts : List String,
      handleTriggers client c ts src target cmd tokens =
        some (concatMap (fun t => pairEffList client c t src target cmd tokens) ts) := by
  intro ts
  induction ts with
  | nil => rfl
  | cons t rest ih =>
    unfold handleTriggers
    rw [handleMessagePair_eq client c t src target cmd tokens hsrc htar hca, ih]
    simp [concatMap]

theorem handleCommandsList_eq (client : Client)
    (src target cmd : String) (tokens : List String)
    (hsrc : '!' ∈ src.toList) (htar : target.toList ≠ []) :
    ∀ cs : List Command, (∀ c ∈ cs, checkArgs c.arguments tokens ≠ none) →
      handleCommandsList client cs src target cmd tokens =
        some (concatMap (fun c =>
          concatMap (fun t => pairEffList client c t src target cmd tokens)
            c.triggers) cs) := by
  intro cs
  induction cs with
  | nil => intro _; rfl
  | cons c rest ih =>
    intro hargs
    unfold handleCommandsList
    rw [handleTriggers_eq client c src target cmd tokens hsrc htar
      (hargs c (List.mem_cons_self c rest)) c.triggers,
      ih (fun d hd => hargs d (List.mem_cons_of_mem c hd))]
    simp [concatMap]

theorem concatMap_append (f : α → List β) (l1 l2 : List α) :
    concatMap f (l1 ++ l2) = concatMap f l1 ++ concatMap f l2 := by
  induction l1 with
  | nil => rfl
  | cons a as ih => simp [concatMap, ih]

theorem concatMap_map (f : β → List γ) (g : α → β) (l : List α) :
    concatMap f (l.map g) = concatMap (fun a => f (g a)) l := by
  induction l with
  | nil => rfl
  | cons a as ih => simp [concatMap, ih]

theorem concatMap_pairsOf (client : Client) (src target cmd : String)
    (tokens : List String) (cs : List Command) :
    concatMap (fun ct => pairEffList client ct.1 ct.2 src target cmd tokens)
        (pairsOf cs) =
      concatMap (fun c =>
        concatMap (fun t => pairEffList client c t src target cmd tokens)
          c.triggers) cs := by
  induction cs with
  | nil => rfl
  | cons c rest ih =>
    have h1 : pairsOf (c :: rest) =
        c.triggers.map (fun t => (c, t)) ++ pairsOf rest := rfl
    rw [h1, concatMap_append, concatMap_map, ih]
    rfl

theorem mem_concatMap {f : α → List β} {b : β} :
    ∀ {l : List α}, b ∈ concatMap f l ↔ ∃ a ∈ l, b ∈ f a := by
  intro l
  induction l with
  | nil => simp [concatMap]
  | cons a as ih => simp [concatMap, ih, List.mem_append]

theorem fst_mem_of_mem_pairsOf {cs : List Command} {ct : Command × String}
    (h : ct ∈ pairsOf cs) : ct.1 ∈ cs := by
  obtain ⟨c, hc, hmem⟩ := mem_concatMap.mp h
  obtain ⟨t, _, hct⟩ := List.mem_map.mp hmem
  rw [← hct]
  exact hc

theorem countP_concatMap (p : β → Bool) (f : α → List β) :
    ∀ l : List α, (concatMap f l).countP p = (l.map (fun a => (f a).countP p)).sum := by
  intro l
  induction l with
  | nil => rfl
  | cons a as ih => simp [concatMap, List.countP_append, ih]

theorem sum_map_ite (q : α → Bool) (g : α → Nat) :
    ∀ l : List α, (∀ a ∈ l, g a = if q a then 1 else 0) →
      (l.map g).sum = (l.filter q).length := by
  intro l
  induction l with
  | nil => intro _; rfl
  | cons a as ih =>
    intro h
    have ha := h a (List.mem_cons_self a as)
    have hrest := ih (fun x hx => h x (List.mem_cons_of_mem a hx))
    cases hq : q a
    · simp [List.filter_cons, hq, ha, hrest]
    · simp [List.filter_cons, hq, ha, hrest]
      omega

/-- Case characterization of `pairEffList` in the panic-free, valid-key
setting. -/
theorem pairEffList_cases (client : Client) (c : Command) (t : String)
    (src target cmd : String) (tokens : List String)
    (hsrc : '!' ∈ src.toList) (htar : target.toList ≠ [])
    (hca : checkArgs c.arguments tokens ≠ none)
    (hkey : client.cmdKeys.contains c.function = true) :
    (satPair client src target cmd (c, t) = true →
      enoughArgs tokens (c, t) = true →
      pairEffList client c t src target cmd tokens =
        [Effect.execCmd c.function ⟨src, target, c.settings.symbol ++ t, tokens⟩]) ∧
    (satPair client src target cmd (c, t) = true →
      enoughArgs tokens (c, t) = false →
      ∃ line, sendResponse client src target
          (usageMessage (c.settings.symbol ++ t) c.arguments) = some (.send line) ∧
        pairEffList client c t src target cmd tokens = [Effect.send line]) ∧
    (satPair client src target cmd (c, t) = false →
      pairEffList client c t src target cmd tokens = []) := by
  refine ⟨?_, ?_, ?_⟩
  · intro hsat hen
    have hv : validateCommand client c.settings (c.settings.symbol ++ t)
        src target cmd = some true := of_decide_eq_true hsat
    have hc2 : checkArgs c.arguments tokens = some true := of_decide_eq_true hen
    have hmem : c.function ∈ client.cmdKeys := List.elem_iff.mp hkey
    unfold pairEffList ExecCommand
    rw [hv, hc2]
    simp [hmem]
  · intro hsat hen
    have hv : validateCommand client c.settings (c.settings.symbol ++ t)
        src target cmd = some true := of_decide_eq_true hsat
    have hc2 : checkArgs c.arguments tokens = some false := by
      cases hcc : checkArgs c.arguments tokens with
      | none => exact absurd hcc hca
      | some v =>
        cases v
        · rfl
        · simp [enoughArgs, hcc] at hen
    obtain ⟨line, hsr⟩ := sendResponse_some client src target
      (usageMessage (c.settings.symbol ++ t) c.arguments) hsrc htar
    refine ⟨line, hsr, ?_⟩
    unfold pairEffList
    rw [hv, hc2, hsr]
    rfl
  · intro hsat
    obtain ⟨b, hv⟩ := validateCommand_isSome client c.settings
      (c.settings.symbol ++ t) src target cmd hsrc htar
    have hb : b = false := by
      cases b
      · rfl
      · simp [satPair, hv] at hsat
    rw [hb] at hv
    unfold pairEffList
    rw [hv]
    rfl

theorem pairEffList_countP_exec (client : Client) (c : Command) (t : String)
    (src target cmd : String) (tokens : List String)
    (hsrc : '!' ∈ src.toList) (htar : target.toList ≠ [])
    (hca : checkArgs c.arguments tokens ≠ none)
    (hkey : client.cmdKeys.contains c.function = true) :
    (pairEffList client c t src target cmd tokens).countP isExecEff =
      (if satPair client src target cmd (c, t) &&
          enoughArgs tokens (c, t) then 1 else 0) := by
  have hcase := pairEffList_cases client c t src target cmd tokens
    hsrc htar hca hkey
  cases hsat : satPair client src target cmd (c, t)
  · rw [hcase.2.2 hsat]
    rfl
  · cases hen : enoughArgs tokens (c, t)
    · obtain ⟨line, _, hpe⟩ := hcase.2.1 hsat hen
      rw [hpe]
      rfl
    · rw [hcase.1 hsat hen]
      rfl

theorem pairEffList_countP_send (client : Client) (c : Command) (t : String)
    (src target cmd : String) (tokens : List String)
    (hsrc : '!' ∈ src.toList) (htar : target.toList ≠ [])
    (hca : checkArgs c.arguments tokens ≠ none)
    (hkey : client.cmdKeys.contains c.function = true) :
    (pairEffList client c t src target cmd tokens).countP isSendEff =
      (if satPair client src target cmd (c, t) &&
          !enoughArgs tokens (c, t) then 1 else 0) := by
  have hcase := pairEffList_cases client c t src target cmd tokens
    hsrc htar hca hkey
  cases hsat : satPair client src target cmd (c, t)
  · rw [hcase.2.2 hsat]
    rfl
  · cases hen : enoughArgs tokens (c, t)
    · obtain ⟨line, _, hpe⟩ := hcase.2.1 hsat hen
      rw [hpe]
      rfl
    · rw [hcase.1 hsat hen]
      rfl

/-- C3: for every inbound PRIVMSG chat line (with `'!'` in the source and
a non-empty target, i.e. no Go panic), `handleMessage` visits every
(command, trigger) pair: the produced effects are the concatenation of the
per-pair effects; with all handler keys registered, the number of spawned
handler invocations equals the number of satisfying pairs with enough
supplied tokens (each satisfying pair fires exactly once, with no
first-match short circuit), the number of outbound usage replies equals
the number of satisfying pairs with too few tokens, and each such pair
sends a usage reply echoing trigger and signature to the originating
source/target instead of dispatching. -/
theorem handleMessage_dispatch (client : Client)
    (src target cmd : String) (tokens : List String)
    (hsrc : '!' ∈ src.toList) (htar : target.toList ≠ [])
    (hargs : ∀ c ∈ client.commands, checkArgs c.arguments tokens ≠ none)
    (hkeys : ∀ c ∈ client.commands, client.cmdKeys.contains c.function = true) :
    handleMessage client src target cmd tokens =
      some (concatMap (fun ct => pairEffList client ct.1 ct.2 src target cmd tokens)
        (pairsOf client.commands)) ∧
    (concatMap (fun ct => pairEffList client ct.1 ct.2 src target cmd tokens)
        (pairsOf client.commands)).countP isExecEff =
      ((pairsOf client.commands).filter (fun ct =>
        satPair client src target cmd ct && enoughArgs tokens ct)).length ∧
    (concatMap (fun ct => pairEffList client ct.1 ct.2 src target cmd tokens)
        (pairsOf client.commands)).countP isSendEff =
      ((pairsOf client.commands).filter (fun ct =>
        satPair client src target cmd ct && !enoughArgs tokens ct)).length ∧
    (∀ ct ∈ pairsOf client.commands,
      satPair client src target cmd ct = true → enoughArgs tokens ct = false →
      ∃ line, sendResponse client src target
          (usageMessage (ct.1.settings.symbol ++ ct.2) ct.1.arguments) =
            some (.send line) ∧
        pairEffList client ct.1 ct.2 src target cmd tokens =
          [Effect.send line]) := by
  refine ⟨?_, ?_, ?_, ?_⟩
  · unfold handleMessage
    rw [handleCommandsList_eq client src target cmd tokens hsrc htar
      client.commands hargs, concatMap_pairsOf]
  · rw [countP_concatMap]
    refine sum_map_ite _ _ _ ?_
    intro ct hct
    exact pairEffList_countP_exec client ct.1 ct.2 src target cmd tokens
      hsrc htar (hargs ct.1 (fst_mem_of_mem_pairsOf hct))
      (hkeys ct.1 (fst_mem_of_mem_pairsOf hct))
  · rw [countP_concatMap]
    refine sum_map_ite _ _ _ ?_
    intro ct hct
    exact pairEffList_countP_send client ct.1 ct.2 src target cmd tokens
      hsrc htar (hargs ct.1 (fst_mem_of_mem_pairsOf hct))
      (hkeys ct.1 (fst_mem_of_mem_pairsOf hct))
  · intro ct hct hsat hen
    exact (pairEffList_cases client ct.1 ct.2 src target cmd tokens
      hsrc htar (hargs ct.1 (fst_mem_of_mem_pairsOf hct))
      (hkeys ct.1 (fst_mem_of_mem_pairsOf hct))).2.1 hsat hen

/-- Command with no mandatory arguments for the C3 witness. -/
def cmdPong : Command :=
  { triggers := ["ping"], function := "pong", arguments := "",
    settings := pingSettings }

/-- Command requiring one mandatory argument for the C3 witness. -/
def cmdEcho : Command :=
  { triggers := ["ping", "p"], function := "echo", arguments := "<x>",
    settings := pingSettings }

/-- Concrete client with two registered commands for the C3 witness. -/
def clientC3 : Client :=
  { clientC1 with
      host := "irc.example.com"
      nick := "bot"
      commands := [cmdPong, cmdEcho]
      cmdKeys := ["pong", "echo"] }

/-- Witness for C3: on `!ping` with zero tokens, the no-argument command
fires and the one-mandatory-argument command sharing the trigger gets a
usage reply instead — one inbound line, two matching pairs, one handler
spawn plus one usage reply. -/
theorem handleMessage_dispatch_witness :
    handleMessage clientC3 "alice!u@h" "#chan" "!ping" [] =
      some [Effect.execCmd "pong" ⟨"alice!u@h", "#chan", "!ping", []⟩,
        Effect.send "PRIVMSG #chan :Invalid arguments. Usage: !ping <x>"] ∧
    ((pairsOf clientC3.commands).filter (fun ct =>
      satPair clientC3 "alice!u@h" "#chan" "!ping" ct &&
        enoughArgs [] ct)).length = 1 ∧
    ((pairsOf clientC3.commands).filter (fun ct =>
      satPair clientC3 "alice!u@h" "#chan" "!ping" ct &&
        !enoughArgs [] ct)).length = 1 := by
  have h := handleMessage_dispatch clientC3 "alice!u@h" "#chan" "!ping" []
    (by decide) (by decide) (by decide) (by decide)
  refine ⟨?_, by decide, by decide⟩
  rw [h.1]
  decide

end Ircutil
